import Mathlib

/-!
# Verification of the claude-sync sync engine against its specification

Shallow embedding of the sync engine of `tawanorg/claude-sync`
(`internal/sync/state.go`, `internal/sync/sync.go`,
`internal/crypto/encrypt.go`, and the key-match probe in `cmd`).

Conventions of the embedding:
* bytes are `List Nat` (each element a byte value);
* `time.Time` instants are `Nat` (the zero value of `time.Time` is `0`;
  `t1.After t2` is `t2 < t1`, `t1.Before t2` is `t1 < t2`);
* Go maps are association lists with replace-on-insert semantics and
  unique keys;
* the SHA-256 content fingerprint of a file's bytes is carried alongside
  its stat metadata in `FileInfo.hash`, so that `HashFile` is a projection
  of the (read-only during one operation) filesystem rather than a second
  path resolution;
* fallible operations return `Option`; a Go `panic` is the dedicated
  `GoOutcome.panicked` value.
-/

set_option autoImplicit false

namespace ClaudeSync

/-- Byte strings. -/
abbrev Bytes := List Nat

/-- The part of `os.FileInfo` the engine reads (`Size`, `ModTime`),
together with the SHA-256 fingerprint of the file's current contents
(what `HashFile` would return for the path). -/
structure FileInfo where
  size : Nat
  modTime : Nat
  hash : String
  deriving Repr, DecidableEq

/-- Model of `FileState` from `state.go`: the per-path persistent record. -/
structure FileState where
  path : String
  hash : String
  size : Nat
  modTime : Nat
  uploaded : Nat
  deriving Repr, DecidableEq

/-- Model of `SyncState` from `state.go`.  The Go `map[string]*FileState` is an
association list with unique keys. -/
structure SyncState where
  files : List (String × FileState)
  lastSync : Nat
  deviceID : String
  lastPush : Nat
  lastPull : Nat
  deriving Repr, DecidableEq

/-- Metadata of one remote object (`storage.ObjectInfo`). -/
structure ObjectInfo where
  key : String
  size : Nat
  lastModified : Nat
  deriving Repr, DecidableEq

/-! ## Association-list primitives (Go map semantics) -/

/-- First-match lookup in an association list (Go map read). -/
def lookupA {α : Type} : List (String × α) → String → Option α
  | [], _ => none
  | (k, v) :: rest, key => if k = key then some v else lookupA rest key

/-- Replace-or-append insertion (Go map write `m[k] = v`). -/
def setA {α : Type} : List (String × α) → String → α → List (String × α)
  | [], key, v => [(key, v)]
  | (k, w) :: rest, key, v =>
    if k = key then (key, v) :: rest else (k, w) :: setA rest key v

/-- Key removal (Go `delete(m, k)`). -/
def eraseA {α : Type} : List (String × α) → String → List (String × α)
  | [], _ => []
  | (k, w) :: rest, key =>
    if k = key then eraseA rest key else (k, w) :: eraseA rest key

/-- Collapse duplicate keys, keeping the first occurrence (`seen` carries
the keys already emitted).  Models the fact that the Go walker
accumulates into a map: a relative path reached twice (only possible from
duplicated sync-path entries, which stat the same file) yields a single
entry. -/
def dedupKeysAux {α : Type} (seen : List String) :
    List (String × α) → List (String × α)
  | [] => []
  | (k, v) :: rest =>
    if k ∈ seen then dedupKeysAux seen rest
    else (k, v) :: dedupKeysAux (k :: seen) rest

def dedupKeys {α : Type} (m : List (String × α)) : List (String × α) :=
  dedupKeysAux [] m

@[simp] theorem lookupA_nil {α : Type} (key : String) :
    lookupA ([] : List (String × α)) key = none := rfl

@[simp] theorem lookupA_cons {α : Type} (k : String) (v : α)
    (rest : List (String × α)) (key : String) :
    lookupA ((k, v) :: rest) key =
      if k = key then some v else lookupA rest key := rfl

theorem lookupA_setA_self {α : Type} (m : List (String × α)) (k : String) (v : α) :
    lookupA (setA m k v) k = some v := by
  induction m with
  | nil => simp [setA, lookupA]
  | cons p rest ih =>
    obtain ⟨k', w⟩ := p
    by_cases h : k' = k <;> simp [setA, lookupA, h, ih]

theorem lookupA_setA_ne {α : Type} (m : List (String × α)) (k k' : String)
    (v : α) (hne : k ≠ k') : lookupA (setA m k v) k' = lookupA m k' := by
  induction m with
  | nil => simp [setA, lookupA, hne]
  | cons p rest ih =>
    obtain ⟨k₀, w⟩ := p
    by_cases h : k₀ = k
    · subst h; simp [setA, lookupA, hne]
    · simp only [setA, if_neg h]
      by_cases h' : k₀ = k' <;> simp [lookupA, h', ih]

theorem lookupA_dedupKeysAux {α : Type} (m : List (String × α))
    (seen : List String) (key : String) :
    lookupA (dedupKeysAux seen m) key =
      if key ∈ seen then none else lookupA m key := by
  induction m generalizing seen with
  | nil => by_cases h : key ∈ seen <;> simp [dedupKeysAux, lookupA, h]
  | cons p rest ih =>
    obtain ⟨k, v⟩ := p
    by_cases hks : k ∈ seen
    · rw [dedupKeysAux, if_pos hks, ih]
      by_cases h : key ∈ seen
      · simp [h]
      · have hne : ¬ k = key := fun he => h (he ▸ hks)
        simp [h, lookupA, hne]
    · rw [dedupKeysAux, if_neg hks]
      by_cases hk : k = key
      · subst hk
        simp [lookupA, hks]
      · have hk' : ¬ key = k := fun he => hk he.symm
        by_cases h : key ∈ seen
        · simp [lookupA, hk, ih, List.mem_cons, h]
        · simp [lookupA, hk, ih, List.mem_cons, h, hk']

theorem lookupA_dedupKeys {α : Type} (m : List (String × α)) (key : String) :
    lookupA (dedupKeys m) key = lookupA m key := by
  rw [dedupKeys, lookupA_dedupKeysAux]
  simp

theorem mem_of_lookupA_eq_some {α : Type} {m : List (String × α)}
    {key : String} {v : α} (h : lookupA m key = some v) : (key, v) ∈ m := by
  induction m with
  | nil => simp [lookupA] at h
  | cons p rest ih =>
    obtain ⟨k, w⟩ := p
    by_cases hk : k = key
    · subst hk
      simp [lookupA] at h
      subst h; exact List.mem_cons_self _ _
    · simp [lookupA, hk] at h
      exact List.mem_cons_of_mem _ (ih h)

/-- Concatenation of per-element contributions (the accumulation pattern of
the Go loops, kept as a named recursion for clean equations). -/
def collect {α β : Type} (f : α → List β) : List α → List β
  | [] => []
  | a :: rest => f a ++ collect f rest

theorem mem_collect {α β : Type} (f : α → List β) (l : List α) (b : β) :
    b ∈ collect f l ↔ ∃ a ∈ l, b ∈ f a := by
  induction l with
  | nil => simp [collect]
  | cons a rest ih => simp [collect, ih]

/-! ## Tree walker (`GetLocalFiles` in `state.go`)

The working tree is a finite directory tree.  `FSEntry.symlink` models a
dangling symbolic link: at the top level `os.Stat` (which follows links)
reports it as non-existent, and inside `filepath.Walk` the `Lstat`-based
mode check skips it; a resolvable top-level symlink behaves as its target
and is modelled by the target entry itself. -/

inductive FSEntry where
  | file (info : FileInfo)
  | symlink
  | dir (children : List (String × FSEntry))

/-! The `filepath.Walk` traversal: directories recurse, symlinks are
skipped, regular files are emitted keyed by their `claudeDir`-relative
path (`pre` is the accumulated prefix ending in "/").  There is no
filtering on the file's name. -/
mutual

/-- One visited entry of the `filepath.Walk` traversal. -/
def walkEntry (pre name : String) : FSEntry → List (String × FileInfo)
  | .file i => [(pre ++ name, i)]
  | .symlink => []
  | .dir cs => walkChildren (pre ++ name ++ "/") cs

/-- The children loop of the `filepath.Walk` traversal. -/
def walkChildren (pre : String) : List (String × FSEntry) → List (String × FileInfo)
  | [] => []
  | (name, e) :: rest => walkEntry pre name e ++ walkChildren pre rest

end

/-- Model of `GetLocalFiles` from `state.go`: for each sync path, a missing entry
is skipped, a directory is walked recursively, a regular file contributes
itself.  The results accumulate into a map (`dedupKeys` realises the Go
map's key uniqueness; duplicate keys can arise only from duplicated
sync-path entries, which stat identical files). -/
def GetLocalFiles (fs : List (String × FSEntry)) (syncPaths : List String) :
    List (String × FileInfo) :=
  dedupKeys <| collect (fun syncPath =>
    match lookupA fs syncPath with
    | none => []
    | some (FSEntry.dir cs) => walkChildren (syncPath ++ "/") cs
    | some (FSEntry.file i) => [(syncPath, i)]
    | some FSEntry.symlink => []) syncPaths

/-! ## Persistent state operations (`state.go`) -/

/-- Model of `SyncState.UpdateFile`: installs a fresh record; note the Go code
builds a new `FileState` literal, so `Uploaded` is reset to the zero
instant. -/
def SyncState.UpdateFile (s : SyncState) (relativePath : String)
    (info : FileInfo) (hash : String) : SyncState :=
  let record : FileState :=
    { path := relativePath, hash := hash, size := info.size,
      modTime := info.modTime, uploaded := 0 }
  { s with files := setA s.files relativePath record }

/-- Model of `SyncState.MarkUploaded`: sets `Uploaded := time.Now()` on an existing
record (no-op when the record is absent). -/
def SyncState.MarkUploaded (s : SyncState) (relativePath : String) (now : Nat) :
    SyncState :=
  match lookupA s.files relativePath with
  | some f => { s with files := setA s.files relativePath ({ f with uploaded := now }) }
  | none => s

/-- Model of `SyncState.GetFile`. -/
def SyncState.GetFile (s : SyncState) (relativePath : String) : Option FileState :=
  lookupA s.files relativePath

/-- Model of `SyncState.RemoveFile`. -/
def SyncState.RemoveFile (s : SyncState) (relativePath : String) : SyncState :=
  { s with files := eraseA s.files relativePath }

/-! ## Change detector (`SyncState.DetectChanges` in `state.go`) -/

/-- One change record; `action` is one of the Go strings `"add"`,
`"modify"`, `"delete"` (a delete record leaves the other fields at their
zero values, as in the Go code). -/
structure FileChange where
  path : String
  action : String
  localHash : String
  localSize : Nat
  localTime : Nat
  deriving Repr, DecidableEq

/-- Per-file body of `DetectChanges`' first loop: a walker-visible file
with no record is `add`, one whose current fingerprint differs from the
recorded hash is `modify`, otherwise nothing. -/
def changeForLocal (s : SyncState) (q : String × FileInfo) : List FileChange :=
  match s.GetFile q.1 with
  | none => [⟨q.1, "add", q.2.hash, q.2.size, q.2.modTime⟩]
  | some existing =>
    if existing.hash ≠ q.2.hash then
      [⟨q.1, "modify", q.2.hash, q.2.size, q.2.modTime⟩]
    else []

/-- First loop of `DetectChanges`. -/
def detectFromLocal (s : SyncState) (localFiles : List (String × FileInfo)) :
    List FileChange :=
  collect (changeForLocal s) localFiles

/-- Per-record body of `DetectChanges`' second loop: a recorded path not
visible to the walker is `delete` (the other fields stay at their Go zero
values). -/
def changeForDeleted (localFiles : List (String × FileInfo))
    (q : String × FileState) : List FileChange :=
  if (lookupA localFiles q.1).isSome then [] else [⟨q.1, "delete", "", 0, 0⟩]

/-- Second loop of `DetectChanges`. -/
def detectDeleted (localFiles : List (String × FileInfo))
    (files : List (String × FileState)) : List FileChange :=
  collect (changeForDeleted localFiles) files

/-- Model of `SyncState.DetectChanges`. -/
def SyncState.DetectChanges (s : SyncState) (fs : List (String × FSEntry))
    (syncPaths : List String) : List FileChange :=
  let localFiles := GetLocalFiles fs syncPaths
  detectFromLocal s localFiles ++ detectDeleted localFiles s.files

/-! ## String suffix helpers (`strings.HasSuffix` / `strings.TrimSuffix`) -/

def strEndsWith (s suffix : String) : Bool :=
  decide (suffix.data.length ≤ s.data.length ∧
    s.data.drop (s.data.length - suffix.data.length) = suffix.data)

def trimSuffix (s suffix : String) : String :=
  if strEndsWith s suffix then
    String.mk (s.data.take (s.data.length - suffix.data.length))
  else s

/-! ## Pull engine (`sync.go`)

`Pull` lists the bucket, builds `remoteFiles` (keys with the `.age`
suffix, keyed by the suffix-stripped logical path), enumerates the
working tree once, classifies every remote path, handles conflicts
inline, then downloads.  The embedding takes the walker output
(`localFiles`) and the flat byte contents of the working tree (`disk`)
as explicit arguments; the byte store and the decryptor are parameters
(`store` maps bucket keys to ciphertext, `decrypt` is
`Encryptor.Decrypt`, `hashFn` is the SHA-256 hex fingerprint). -/

inductive PullDecision where
  | download
  | conflict
  | skip
  deriving Repr, DecidableEq

/-- The classification chain inside `Pull`'s first loop, verbatim from the
code: a missing local file downloads; with a state record, a remote
object strictly newer than `Uploaded` downloads unless the local
fingerprint differs from the recorded hash (conflict), otherwise skips;
with a local file but no state record, it downloads iff the local mtime
is strictly before the remote mtime. -/
def classifyRemote (st : SyncState) (localFiles : List (String × FileInfo))
    (localPath : String) (remoteObj : ObjectInfo) : PullDecision :=
  match lookupA localFiles localPath with
  | none => .download
  | some localInfo =>
    match st.GetFile localPath with
    | some stateFile =>
      if stateFile.uploaded < remoteObj.lastModified then
        if localInfo.hash ≠ stateFile.hash then .conflict else .download
      else .skip
    | none =>
      if localInfo.modTime < remoteObj.lastModified then .download else .skip

/-- Working tree contents plus persistent state, the data mutated by the
download path. -/
structure PullEnv where
  disk : List (String × Bytes)
  state : SyncState
  deriving Repr, DecidableEq

/-- Model of `Syncer.downloadFile`: download, decrypt, write the plaintext at the
relative path, then re-stat and re-hash the just-written file and update
the state (`UpdateFile` + `MarkUploaded`).  `none` is the error return
(download or decryption failure). -/
def downloadFile (hashFn : Bytes → String) (decrypt : Bytes → Option Bytes)
    (store : List (String × Bytes)) (now : Nat) (env : PullEnv)
    (relativePath remoteKey : String) : Option PullEnv :=
  match lookupA store remoteKey with
  | none => none
  | some encrypted =>
    match decrypt encrypted with
    | none => none
    | some data =>
      let disk := setA env.disk relativePath data
      let info : FileInfo := { size := data.length, modTime := now, hash := hashFn data }
      let st := (env.state.UpdateFile relativePath info (hashFn data)).MarkUploaded relativePath now
      some { disk := disk, state := st }

/-- Model of `Syncer.handleConflict`: re-uses `downloadFile` with the sidecar path
`<path>.conflict.<timestamp>` (`ts` is the `time.Now().Format` string). -/
def handleConflict (hashFn : Bytes → String) (decrypt : Bytes → Option Bytes)
    (store : List (String × Bytes)) (now : Nat) (ts : String) (env : PullEnv)
    (relativePath : String) (remoteObj : ObjectInfo) : Option PullEnv :=
  downloadFile hashFn decrypt store now env
    (relativePath ++ ".conflict." ++ ts) remoteObj.key

/-- Model of `SyncResult` from `sync.go`; per-path errors are recorded by the
offending path. -/
structure SyncResult where
  uploaded : List String := []
  downloaded : List String := []
  deleted : List String := []
  conflicts : List String := []
  errors : List String := []
  deriving Repr, DecidableEq

def emptySyncResult : SyncResult := {}

/-- Outcome of one `Pull`: the result object, the mutated environment and
whether `state.Save()` was reached. -/
structure PullOutcome where
  result : SyncResult
  env : PullEnv
  saved : Bool
  deriving Repr, DecidableEq

/-- The `remoteFiles` map: every listed key with the `.age` suffix, keyed
by the suffix-stripped logical path. -/
def remoteFilesOf (remoteObjects : List ObjectInfo) : List (String × ObjectInfo) :=
  remoteObjects.foldl (fun m obj =>
    if strEndsWith obj.key ".age" then setA m (trimSuffix obj.key ".age") obj else m) []

/-- One iteration of `Pull`'s classification loop: conflicts are recorded
and handled inline (mutating the environment through the sidecar
download), download candidates are queued, skips do nothing.  The
classification consults the current (possibly already mutated) state,
as the Go code reads `s.state` through the loop. -/
def pullClassifyStep (hashFn : Bytes → String) (decrypt : Bytes → Option Bytes)
    (store : List (String × Bytes)) (now : Nat) (ts : String)
    (localFiles : List (String × FileInfo))
    (acc : PullEnv × SyncResult × List (String × ObjectInfo))
    (entry : String × ObjectInfo) :
    PullEnv × SyncResult × List (String × ObjectInfo) :=
  let (env, res, toDownload) := acc
  let (localPath, remoteObj) := entry
  match classifyRemote env.state localFiles localPath remoteObj with
  | .conflict =>
    let res := { res with conflicts := res.conflicts ++ [localPath] }
    match handleConflict hashFn decrypt store now ts env localPath remoteObj with
    | none => (env, { res with errors := res.errors ++ [localPath] }, toDownload)
    | some env' => (env', res, toDownload)
  | .download => (env, res, toDownload ++ [(localPath, remoteObj)])
  | .skip => (env, res, toDownload)

/-- One iteration of `Pull`'s download loop. -/
def pullDownloadStep (hashFn : Bytes → String) (decrypt : Bytes → Option Bytes)
    (store : List (String × Bytes)) (now : Nat)
    (acc : PullEnv × SyncResult) (task : String × ObjectInfo) :
    PullEnv × SyncResult :=
  let (env, res) := acc
  match downloadFile hashFn decrypt store now env task.1 task.2.key with
  | none => (env, { res with errors := res.errors ++ [task.1] })
  | some env' => (env', { res with downloaded := res.downloaded ++ [task.1] })

/-- Model of `Syncer.Pull`.  An empty listing returns the empty result before the
`LastPull`/`LastSync` update and the `Save` (hence `saved = false`);
otherwise both loops run and the final state carries the new instants. -/
def Pull (hashFn : Bytes → String) (decrypt : Bytes → Option Bytes)
    (store : List (String × Bytes)) (now : Nat) (ts : String)
    (s : SyncState) (localFiles : List (String × FileInfo))
    (disk : List (String × Bytes)) (remoteObjects : List ObjectInfo) :
    PullOutcome :=
  if remoteObjects.isEmpty then
    { result := {}, env := { disk := disk, state := s }, saved := false }
  else
    let remoteFiles := remoteFilesOf remoteObjects
    let step1 := pullClassifyStep hashFn decrypt store now ts localFiles
    let acc1 := remoteFiles.foldl step1 ({ disk := disk, state := s }, {}, [])
    let step2 := pullDownloadStep hashFn decrypt store now
    let acc2 := acc1.2.2.foldl step2 (acc1.1, acc1.2.1)
    let env := acc2.1
    { result := acc2.2,
      env := { env with state := { env.state with lastPull := now, lastSync := now } },
      saved := true }

/-! ## Push engine (`sync.go`)

`upOk`/`delOk` abstract the success of the read→encrypt→upload pipeline
and of the remote delete for a given path.  On upload success the code
re-stats and re-hashes the file it just read; within one sequential
operation this re-read observes what the walker saw, so the embedding
takes the metadata from the walker output (the race with an external
writer is modelled separately for the nil-stat analysis). -/

structure PushOutcome where
  result : SyncResult
  state : SyncState
  saved : Bool
  deriving Repr, DecidableEq

/-- One iteration of `Push`'s change loop. -/
def pushStep (upOk delOk : String → Bool) (now : Nat)
    (localFiles : List (String × FileInfo))
    (acc : SyncState × SyncResult) (change : FileChange) :
    SyncState × SyncResult :=
  let (st, res) := acc
  if change.action = "add" ∨ change.action = "modify" then
    if upOk change.path then
      match lookupA localFiles change.path with
      | some info =>
        ((st.UpdateFile change.path info info.hash).MarkUploaded change.path now,
         { res with uploaded := res.uploaded ++ [change.path] })
      | none => (st, res)
    else (st, { res with errors := res.errors ++ [change.path] })
  else if change.action = "delete" then
    if delOk change.path then
      (st.RemoveFile change.path, { res with deleted := res.deleted ++ [change.path] })
    else (st, { res with errors := res.errors ++ [change.path] })
  else (st, res)

/-- Model of `Syncer.Push`.  With no detected changes it returns the empty result
immediately — before the `LastPush`/`LastSync` update and the `Save`
(hence `saved = false` and the state is returned untouched). -/
def Push (upOk delOk : String → Bool) (now : Nat) (s : SyncState)
    (fs : List (String × FSEntry)) (syncPaths : List String) : PushOutcome :=
  let changes := s.DetectChanges fs syncPaths
  if changes.isEmpty then { result := {}, state := s, saved := false }
  else
    let localFiles := GetLocalFiles fs syncPaths
    let acc := changes.foldl (pushStep upOk delOk now localFiles) (s, {})
    { result := acc.2,
      state := { acc.1 with lastPush := now, lastSync := now },
      saved := true }

/-! ## Trace of `SyncState.Save` (`state.go`)

`Save` serializes the state with `json.MarshalIndent` (the serializer is
a parameter here) and performs filesystem operations; the embedding
records the operation trace.  A crash during a `write` can leave any
prefix of the data at the target path; a `rename` is atomic. -/

inductive FsOp where
  | write (path : String) (data : Bytes)
  | rename (src dst : String)
  deriving Repr, DecidableEq

def isRenameOp : FsOp → Bool
  | .rename _ _ => true
  | _ => false

/-- The filesystem-operation trace of `SyncState.Save`: a single
`os.WriteFile(statePath, data, 0600)` of the serialized state, directly
at the state file's path. -/
def saveOps (statePath : String) (serialize : SyncState → Bytes) (s : SyncState) :
    List FsOp :=
  [FsOp.write statePath (serialize s)]

/-- Contents observable at `path` if the process crashes after `k` bytes
of the given operation: a partially-completed `write` leaves a prefix of
its data at its target; a `rename` leaves nothing partial. -/
def opCrashContents (op : FsOp) (k : Nat) (path : String) : Option Bytes :=
  match op with
  | .write p data => if p = path then some (data.take k) else none
  | .rename _ _ => none

/-! ## Nil-stat hazard in `uploadFile` / `downloadFile` (`sync.go`)

After a successful upload (resp. write), the code runs
`info, _ := os.Stat(fullPath)` discarding the error and passes `info`
into `SyncState.UpdateFile`, which calls `info.Size()`.  When the file
was removed between the two steps, `os.Stat` returns a nil `os.FileInfo`
and the method call panics. -/

inductive GoOutcome (α : Type) where
  | ok (val : α)
  | panicked
  deriving Repr, DecidableEq

/-- Model of `SyncState.UpdateFile` as reached with a possibly-nil `os.FileInfo`:
`info.Size()` on a nil interface value is a nil-pointer dereference. -/
def UpdateFileGo (s : SyncState) (relativePath : String)
    (info : Option FileInfo) (hash : String) : GoOutcome SyncState :=
  match info with
  | none => .panicked
  | some i => .ok (s.UpdateFile relativePath i hash)

/-- The tail of `Syncer.uploadFile` (identical in `downloadFile`) after
the network operation succeeded: stat (error discarded), `UpdateFile`,
`MarkUploaded`.  `statResult` is what `os.Stat` returned; it is `none`
when the file vanished in between. -/
def uploadFinish (s : SyncState) (relativePath : String)
    (statResult : Option FileInfo) (hash : String) (now : Nat) :
    GoOutcome SyncState :=
  match UpdateFileGo s relativePath statResult hash with
  | .panicked => .panicked
  | .ok s₁ => .ok (s₁.MarkUploaded relativePath now)

/-! ## Key-match probe (`verifyKeyMatchesRemote` in `cmd`) -/

/-- The candidate-selection step of `verifyKeyMatchesRemote`: the loop
takes the FIRST listed object with `0 < Size < 10000` (it breaks at the
first hit); if none was found (`testObj.Key == ""`), it falls back to the
first listed object. -/
def pickTestObject (objects : List ObjectInfo) : ObjectInfo :=
  let zero : ObjectInfo := { key := "", size := 0, lastModified := 0 }
  let found := objects.find? (fun o => decide (0 < o.size) && decide (o.size < 10000))
  let testObj := found.getD zero
  if testObj.key = "" ∧ 0 < objects.length then objects.headD zero else testObj

/-! ## Passphrase-derived identity (`crypto/encrypt.go`)

SHA-256 and Argon2id are abstract primitives (`KdfPrims`); the
Curve25519 clamping, the 8-bit→5-bit regrouping and the Bech32 encoding
(charset, checksum, HRP concatenation) are implemented concretely, as in
`btcsuite`'s `bech32` package used by the code. -/

/-- Abstract hash primitives.  `argon2id` has the argument order of
`golang.org/x/crypto/argon2.IDKey`: password, salt, time cost, memory in
KiB, threads, output length in bytes. -/
structure KdfPrims where
  sha256 : Bytes → Bytes
  argon2id : Bytes → Bytes → Nat → Nat → Nat → Nat → Bytes

def strBytes (s : String) : Bytes := s.data.map Char.toNat

/-- Curve25519 clamping as the code writes it:
`key[0] &= 248; key[31] &= 127; key[31] |= 64`. -/
def clamp25519 (key : Bytes) : Bytes :=
  let key := key.set 0 ((key.getD 0 0) &&& 248)
  let key := key.set 31 ((key.getD 31 0) &&& 127)
  key.set 31 ((key.getD 31 0) ||| 64)

/-- Emit the full 5-bit groups of `acc` (most significant first) while at
least 5 bits remain. -/
def emit5 (acc bits : Nat) : List Nat :=
  if h : 5 ≤ bits then ((acc >>> (bits - 5)) &&& 31) :: emit5 acc (bits - 5) else []
termination_by bits
decreasing_by omega

/-- Model of `bech32.ConvertBits(data, 8, 5, true)`: regroup 8-bit bytes into
5-bit groups, padding the tail with zero bits. -/
def convertBits8to5 (data : Bytes) : List Nat :=
  let fin := data.foldl (fun (st : Nat × Nat × List Nat) b =>
    let acc := (st.1 <<< 8) ||| (b &&& 255)
    let bits := st.2.1 + 8
    (acc, bits % 5, st.2.2 ++ emit5 acc bits)) (0, 0, [])
  if 0 < fin.2.1 then fin.2.2 ++ [(fin.1 <<< (5 - fin.2.1)) &&& 31] else fin.2.2

def bech32Charset : List Char := "qpzry9x8gf2tvdw0s3jn54khce6mua7l".data

def bech32Gen : List Nat := [0x3b6a57b2, 0x26508e6d, 0x1ea119fa, 0x3d4233dd, 0x2a1462b3]

def polymodStep (chk v : Nat) : Nat :=
  let b := chk >>> 25
  let chk' := ((chk &&& 0x1ffffff) <<< 5) ^^^ v
  (List.range 5).foldl
    (fun c i => if (b >>> i) &&& 1 = 1 then c ^^^ bech32Gen.getD i 0 else c) chk'

def bech32Polymod (values : List Nat) : Nat := values.foldl polymodStep 1

def hrpExpand (hrp : String) : List Nat :=
  hrp.data.map (fun c => c.toNat >>> 5) ++ [0] ++ hrp.data.map (fun c => c.toNat &&& 31)

def bech32CreateChecksum (hrp : String) (data : List Nat) : List Nat :=
  let values := hrpExpand hrp ++ data ++ [0, 0, 0, 0, 0, 0]
  let pm := bech32Polymod values ^^^ 1
  (List.range 6).map (fun i => (pm >>> (5 * (5 - i))) &&& 31)

/-- Model of `bech32.Encode(hrp, data)`: HRP, separator `1`, data-with-checksum in
the Bech32 charset. -/
def bech32Encode (hrp : String) (data : List Nat) : String :=
  hrp ++ "1" ++
    String.mk ((data ++ bech32CreateChecksum hrp data).map
      (fun v => bech32Charset.getD v 'q'))

/-- Model of `encodeAgeIdentity` from `encrypt.go`: Bech32 with HRP
`age-secret-key-`, upper-cased. -/
def encodeAgeIdentity (scalar : Bytes) : String :=
  (bech32Encode "age-secret-key-" (convertBits8to5 scalar)).toUpper

/-- Model of `GenerateKeyFromPassphrase` from `encrypt.go` (the identity string it
derives; the file write and the public-key computation do not affect it):
fixed salt `SHA-256("claude-sync-v1")`, `argon2.IDKey(pass, salt, 3,
64*1024, 4, 32)`, clamping, age identity encoding. -/
def GenerateKeyFromPassphrase (P : KdfPrims) (passphrase : String) : String :=
  let salt := P.sha256 (strBytes "claude-sync-v1")
  let key := P.argon2id (strBytes passphrase) salt 3 (64 * 1024) 4 32
  encodeAgeIdentity (clamp25519 key)

/-- The derivation exactly as §4.2 of the spec words it:
salt := SHA-256("claude-sync-v1"); raw := Argon2id(passphrase, salt,
memory = 64 MiB, iterations = 3, parallelism = 4, output = 32 bytes);
clamp raw[0] &= 0xF8, raw[31] &= 0x7F, raw[31] |= 0x40; encode as Bech32
with HRP `age-secret-key-`, UPPER-cased. -/
def deriveIdentitySpecModel (P : KdfPrims) (passphrase : String) : String :=
  let salt := P.sha256 (strBytes "claude-sync-v1")
  let raw := P.argon2id (strBytes passphrase) salt 3 65536 4 32
  let raw := raw.set 0 ((raw.getD 0 0) &&& 0xF8)
  let raw := raw.set 31 ((raw.getD 31 0) &&& 0x7F)
  let raw := raw.set 31 ((raw.getD 31 0) ||| 0x40)
  (bech32Encode "age-secret-key-" (convertBits8to5 raw)).toUpper

/-! ## Concrete fixtures used by the counterexamples and witnesses -/

/-- A fresh device state (empty `files`, zero instants). -/
def sampleState : SyncState :=
  { files := [], lastSync := 0, deviceID := "dev", lastPush := 0, lastPull := 0 }

/-- A remote object whose bucket mtime is the instant 50. -/
def objF : ObjectInfo := { key := "f.age", size := 1, lastModified := 50 }

/-- A local file last modified at instant 0 with fingerprint "oldhash". -/
def infoF : FileInfo := { size := 1, modTime := 0, hash := "oldhash" }

/-! ## Theorems -/

/-- Claim C7: For every passphrase, deriving an identity is deterministic
(the embedding is a pure function of the passphrase and the hash
primitives — the code path consumes no entropy), and the code's
derivation coincides with the spec's algorithm: salt =
SHA-256("claude-sync-v1"), Argon2id with 64 MiB memory, 3 iterations,
parallelism 4, 32-byte output, Curve25519 clamping, upper-case Bech32
with HRP `age-secret-key-`. -/
theorem generateKey_deterministic_and_matches_spec (P : KdfPrims) (p : String) :
    GenerateKeyFromPassphrase P p = GenerateKeyFromPassphrase P p ∧
    GenerateKeyFromPassphrase P p = deriveIdentitySpecModel P p := by
  exact ⟨rfl, rfl⟩

/-- Claim C5, counterexample: `Save` on a concrete state with a concrete
serializer performs exactly one operation: a direct write of the full
serialization to the state file itself.  There is no temporary file and
no rename, and a crash after one byte of that write leaves the strict
prefix `[1]` of the serialization `[1, 2, 3]` at the state path —
refuting the claim that the state file never holds a partial
serialization. -/
theorem save_not_atomic_counterexample :
    saveOps "state.json" (fun _ => [1, 2, 3]) sampleState =
      [FsOp.write "state.json" [1, 2, 3]] ∧
    (saveOps "state.json" (fun _ => [1, 2, 3]) sampleState).all
      (fun op => !(isRenameOp op)) = true ∧
    opCrashContents (FsOp.write "state.json" [1, 2, 3]) 1 "state.json" = some [1] ∧
    ([1] : Bytes) ≠ [1, 2, 3] :=
  ⟨rfl, rfl, rfl, by decide⟩

/-- Claim C5, amended: Every invocation of `Save` writes the serialized
state in a single direct `os.WriteFile` to the state file's path: no
sibling temporary, no rename. -/
theorem save_writes_directly (statePath : String) (serialize : SyncState → Bytes)
    (s : SyncState) :
    saveOps statePath serialize s = [FsOp.write statePath (serialize s)] := rfl

/-- Claim C9, counterexample: With no detected changes (empty tree, empty
state), `Push` at instant 5 returns the empty result but leaves
`last_sync` at 0 and never reaches `state.Save()` — refuting the claim
that it updates `last_sync` and persists the state. -/
theorem push_no_changes_counterexample :
    (Push (fun _ => true) (fun _ => true) 5 sampleState [] []).saved = false ∧
    (Push (fun _ => true) (fun _ => true) 5 sampleState [] []).state.lastSync = 0 ∧
    (0 : Nat) ≠ 5 ∧
    (Push (fun _ => true) (fun _ => true) 5 sampleState [] []).result = {} :=
  ⟨rfl, rfl, by decide, rfl⟩

/-- Claim C9, amended: Whenever the change detector reports no changes,
`Push` returns the empty result immediately: the state is returned
untouched (in particular `last_sync` keeps its old value) and is not
persisted. -/
theorem push_no_changes_returns_early (upOk delOk : String → Bool) (now : Nat)
    (s : SyncState) (fs : List (String × FSEntry)) (syncPaths : List String)
    (h : s.DetectChanges fs syncPaths = []) :
    Push upOk delOk now s fs syncPaths =
      { result := {}, state := s, saved := false } := by
  simp [Push, h]

theorem push_no_changes_returns_early_witness :
    sampleState.DetectChanges [] [] = [] ∧
    Push (fun _ => true) (fun _ => true) 5 sampleState [] [] =
      { result := {}, state := sampleState, saved := false } :=
  ⟨rfl, push_no_changes_returns_early _ _ _ _ _ _ rfl⟩

/-- Claim C10, code bug: The tail of `uploadFile` (and identically
`downloadFile`) evaluated at the failing input: the network operation
succeeded but the file vanished before the re-stat, so `os.Stat` yields a
nil `os.FileInfo`; the code passes it into `SyncState.UpdateFile`, whose
`info.Size()` call panics instead of returning a value or an error. -/
theorem uploadFinish_panics_on_nil_stat :
    uploadFinish sampleState "CLAUDE.md" none "h" 5 = GoOutcome.panicked := rfl

/-- Claim C8, counterexample: With the listing [a (5000 bytes), b (100
bytes)] — both non-empty and strictly below 10,000 — the probe selects
`a`, the FIRST qualifying object in listing order, although the unique
smallest qualifying object is `b`.  This refutes the claim that the
smallest such object is selected. -/
theorem pickTestObject_counterexample :
    pickTestObject [{ key := "a.age", size := 5000, lastModified := 0 },
                    { key := "b.age", size := 100, lastModified := 0 }] =
      { key := "a.age", size := 5000, lastModified := 0 } ∧
    (100 : Nat) < 5000 ∧ (0 : Nat) < 100 ∧ (100 : Nat) < 10000 ∧
    ({ key := "a.age", size := 5000, lastModified := 0 } : ObjectInfo) ≠
      { key := "b.age", size := 100, lastModified := 0 } := by
  refine ⟨rfl, by decide, by decide, by decide, by decide⟩

/-- Claim C8, amended: For every non-empty listing, the probe selects the
FIRST listed object with `0 < size < 10000` when one exists and its key
is non-empty (bucket keys always are); when no object qualifies, it
falls back to the first listed object. -/
theorem pickTestObject_selects_first (objects : List ObjectInfo) (o : ObjectInfo) :
    (objects.find? (fun x => decide (0 < x.size) && decide (x.size < 10000)) = some o →
      o.key ≠ "" → pickTestObject objects = o) ∧
    (objects.find? (fun x => decide (0 < x.size) && decide (x.size < 10000)) = none →
      ∀ h : objects ≠ [], pickTestObject objects = objects.head h) := by
  constructor
  · intro hfind hk
    simp [pickTestObject, hfind, hk]
  · intro hfind h
    cases objects with
    | nil => exact absurd rfl h
    | cons a rest => simp [pickTestObject, hfind, List.headD]

/-- Pull of one fresh remote object (`f.age`, bucket mtime 50) at local
instant 100 into an empty tree and empty state. -/
def pullFreshOutcome : PullOutcome :=
  Pull (fun _ => "newhash") (fun b => some b) [("f.age", [7])] 100 "20260101-000000"
    sampleState [] [] [objF]

/-- Claim C4, counterexample: After the pull downloads `f`, the state record
for `f` carries `uploaded = 100` — the local wall-clock instant of the
download — and NOT the remote object's `last_modified = 50`, refuting the
claim that `uploaded` equals the remote `last_modified`. -/
theorem pull_uploaded_counterexample :
    pullFreshOutcome.result.downloaded = ["f"] ∧
    (pullFreshOutcome.env.state.GetFile "f").map FileState.uploaded = some 100 ∧
    objF.lastModified = 50 ∧ ¬ ((100 : Nat) = objF.lastModified) :=
  ⟨rfl, rfl, rfl, by decide⟩

/-- Claim C4, amended: For every successful `downloadFile`, the state record
written for the path has `uploaded` (and `mod_time`) equal to the local
wall-clock instant `now` at which `MarkUploaded` ran — the code never
consults the remote object's `last_modified` (indeed `downloadFile`
receives only the bucket key). -/
theorem downloadFile_sets_uploaded_to_now
    (hashFn : Bytes → String) (decrypt : Bytes → Option Bytes)
    (store : List (String × Bytes)) (now : Nat) (env : PullEnv)
    (relativePath remoteKey : String) (env' : PullEnv)
    (h : downloadFile hashFn decrypt store now env relativePath remoteKey = some env') :
    ∃ rec : FileState, env'.state.GetFile relativePath = some rec ∧
      rec.uploaded = now ∧ rec.modTime = now := by
  unfold downloadFile at h
  split at h
  · cases h
  · split at h
    · cases h
    · next data hd =>
      simp only [Option.some.injEq] at h
      subst h
      refine ⟨{ path := relativePath, hash := hashFn data, size := data.length,
                modTime := now, uploaded := now }, ?_, rfl, rfl⟩
      simp [SyncState.GetFile, SyncState.UpdateFile, SyncState.MarkUploaded,
        lookupA_setA_self]

theorem downloadFile_sets_uploaded_to_now_witness :
    (downloadFile (fun _ => "newhash") (fun b => some b) [("f.age", [7])] 100
        { disk := [], state := sampleState } "f" "f.age" =
      some ((downloadFile (fun _ => "newhash") (fun b => some b) [("f.age", [7])] 100
        { disk := [], state := sampleState } "f" "f.age").getD
          { disk := [], state := sampleState })) ∧
    (∃ rec : FileState,
      ((downloadFile (fun _ => "newhash") (fun b => some b) [("f.age", [7])] 100
          { disk := [], state := sampleState } "f" "f.age").getD
        { disk := [], state := sampleState }).state.GetFile "f" = some rec ∧
      rec.uploaded = 100 ∧ rec.modTime = 100) :=
  ⟨rfl, downloadFile_sets_uploaded_to_now (fun _ => "newhash") (fun b => some b)
    [("f.age", [7])] 100 { disk := [], state := sampleState } "f" "f.age" _ rfl⟩

/-- Pull of `f.age` (bucket mtime 50) where the local file `f` exists in
the working tree (pre-pull bytes `[9]`, mtime 0) but the state has NO
record of `f`. -/
def pullNoStateOutcome : PullOutcome :=
  Pull (fun _ => "newhash") (fun b => some b) [("f.age", [7])] 100 "20260101-000000"
    sampleState [("f", infoF)] [("f", [9])] [objF]

/-- Claim C1, counterexample: The local path `f` exists and has no state
record, and the remote object exists — yet the pull classifies it as a
plain Download (zero conflicts) and overwrites the local bytes `[9]` with
the remote payload `[7]`, refuting both halves of the claim (Conflict
classification, and never downloading over the local file). -/
theorem pull_no_state_downloads_counterexample :
    sampleState.GetFile "f" = none ∧
    lookupA [("f", infoF)] "f" = some infoF ∧
    lookupA [("f", [9])] "f" = some ([9] : Bytes) ∧
    pullNoStateOutcome.result.conflicts = [] ∧
    pullNoStateOutcome.result.downloaded = ["f"] ∧
    lookupA pullNoStateOutcome.env.disk "f" = some [7] ∧
    ([9] : Bytes) ≠ [7] :=
  ⟨rfl, rfl, rfl, rfl, rfl, rfl, by decide⟩

/-- Claim C1, amended: For a remote object whose local path exists but has
no state record, the classification is mtime-gated: Download when the
local file's mod time is strictly before the remote `last_modified`
(the remote bytes then overwrite the local file), Skip otherwise — it is
never Conflict. -/
theorem classify_no_state_is_mtime_gated (st : SyncState)
    (localFiles : List (String × FileInfo)) (p : String) (obj : ObjectInfo)
    (info : FileInfo) (hl : lookupA localFiles p = some info)
    (hs : st.GetFile p = none) :
    classifyRemote st localFiles p obj =
      (if info.modTime < obj.lastModified then PullDecision.download
       else PullDecision.skip) ∧
    classifyRemote st localFiles p obj ≠ PullDecision.conflict := by
  unfold classifyRemote
  rw [hl, hs]
  refine ⟨rfl, ?_⟩
  by_cases h : info.modTime < obj.lastModified <;> simp [h]

theorem classify_no_state_is_mtime_gated_witness :
    lookupA [("f", infoF)] "f" = some infoF ∧
    sampleState.GetFile "f" = none ∧
    (classifyRemote sampleState [("f", infoF)] "f" objF =
      (if infoF.modTime < objF.lastModified then PullDecision.download
       else PullDecision.skip) ∧
     classifyRemote sampleState [("f", infoF)] "f" objF ≠ PullDecision.conflict) :=
  ⟨rfl, rfl, classify_no_state_is_mtime_gated _ _ _ _ _ rfl rfl⟩

/-- State with a record of `f` (hash "h0", uploaded at instant 10). -/
def recF : FileState :=
  { path := "f", hash := "h0", size := 1, modTime := 0, uploaded := 10 }

def stateC : SyncState :=
  { files := [("f", recF)], lastSync := 0, deviceID := "dev",
    lastPush := 0, lastPull := 0 }

/-- Local `f` modified since last sync (fingerprint "h1" ≠ recorded "h0"). -/
def infoC : FileInfo := { size := 1, modTime := 20, hash := "h1" }

/-- Pull producing a conflict on `f`: remote mtime 50 > uploaded 10 and
local fingerprint differs from the recorded hash. -/
def pullConflictOutcome : PullOutcome :=
  Pull (fun _ => "hR") (fun b => some b) [("f.age", [7])] 100 "20260101-000000"
    stateC [("f", infoC)] [("f", [9])] [objF]

/-- Claim C3, counterexample: The pull classifies `f` as Conflict and leaves
the local file's bytes untouched, but the persistent `files` mapping is
NOT unchanged: conflict handling routes through `downloadFile`, which
installs a state record for the sidecar path — refuting the frame claim
on the files mapping. -/
theorem pull_conflict_state_counterexample :
    pullConflictOutcome.result.conflicts = ["f"] ∧
    lookupA pullConflictOutcome.env.disk "f" = some [9] ∧
    pullConflictOutcome.env.state.files ≠ stateC.files :=
  ⟨rfl, rfl, by decide⟩

/-- Claim C3, amended: For every successfully handled conflict: the local
file at the conflicted path and its state record are untouched, the
decrypted remote payload is written to the sidecar path
`<path>.conflict.<ts>` — but conflict handling ADDS a state record for
that sidecar path (hash of the payload, `uploaded = mod_time = now`). -/
theorem handleConflict_frame
    (hashFn : Bytes → String) (decrypt : Bytes → Option Bytes)
    (store : List (String × Bytes)) (now : Nat) (ts : String) (env : PullEnv)
    (relativePath : String) (remoteObj : ObjectInfo) (env' : PullEnv)
    (h : handleConflict hashFn decrypt store now ts env relativePath remoteObj = some env') :
    lookupA env'.disk relativePath = lookupA env.disk relativePath ∧
    env'.state.GetFile relativePath = env.state.GetFile relativePath ∧
    ∃ enc data,
      lookupA store remoteObj.key = some enc ∧ decrypt enc = some data ∧
      lookupA env'.disk (relativePath ++ ".conflict." ++ ts) = some data ∧
      env'.state.GetFile (relativePath ++ ".conflict." ++ ts) =
        some { path := relativePath ++ ".conflict." ++ ts, hash := hashFn data,
               size := data.length, modTime := now, uploaded := now } := by
  have hne : ¬ (relativePath ++ ".conflict." ++ ts) = relativePath := by
    intro he
    have hlen : (relativePath ++ ".conflict." ++ ts).length = relativePath.length := by
      rw [he]
    have h10 : (".conflict." : String).length = 10 := by decide
    simp [String.length_append, h10] at hlen
    omega
  unfold handleConflict downloadFile at h
  split at h
  · cases h
  · next enc hs =>
    split at h
    · cases h
    · next data hd =>
      simp only [Option.some.injEq] at h
      subst h
      refine ⟨?_, ?_, enc, data, hs, hd, ?_, ?_⟩
      · exact lookupA_setA_ne _ _ _ _ hne
      · simp only [SyncState.GetFile, SyncState.UpdateFile, SyncState.MarkUploaded,
          lookupA_setA_self]
        rw [lookupA_setA_ne _ _ _ _ hne, lookupA_setA_ne _ _ _ _ hne]
      · exact lookupA_setA_self _ _ _
      · simp [SyncState.GetFile, SyncState.UpdateFile, SyncState.MarkUploaded,
          lookupA_setA_self]

def envC3 : PullEnv := { disk := [("f", [9])], state := stateC }

def handledEnvC3 : PullEnv :=
  (handleConflict (fun _ => "hR") (fun b => some b) [("f.age", [7])] 100 "TS"
    envC3 "f" objF).getD envC3

theorem handleConflict_frame_witness :
    (handleConflict (fun _ => "hR") (fun b => some b) [("f.age", [7])] 100 "TS"
        envC3 "f" objF = some handledEnvC3) ∧
    (lookupA handledEnvC3.disk "f" = lookupA envC3.disk "f" ∧
     handledEnvC3.state.GetFile "f" = envC3.state.GetFile "f" ∧
     ∃ enc data,
       lookupA [("f.age", [7])] objF.key = some enc ∧ some enc = some data ∧
       lookupA handledEnvC3.disk ("f" ++ ".conflict." ++ "TS") = some data ∧
       handledEnvC3.state.GetFile ("f" ++ ".conflict." ++ "TS") =
         some { path := "f" ++ ".conflict." ++ "TS", hash := "hR",
                size := data.length, modTime := 100, uploaded := 100 }) :=
  ⟨rfl, handleConflict_frame (fun _ => "hR") (fun b => some b) [("f.age", [7])]
    100 "TS" envC3 "f" objF handledEnvC3 rfl⟩

/-! ## Walker visibility of `.conflict.` sidecars (C2) -/

def isPrefixB : List Char → List Char → Bool
  | [], _ => true
  | _ :: _, [] => false
  | a :: as, b :: bs => decide (a = b) && isPrefixB as bs

def containsSub (needle : List Char) : List Char → Bool
  | [] => isPrefixB needle []
  | c :: rest => isPrefixB needle (c :: rest) || containsSub needle rest

/-- Model of `strings.Contains(hay, needle)`. -/
def strContains (hay needle : String) : Bool := containsSub needle.data hay.data

/-- A working tree whose directory sync path `d` contains an
engine-style conflict sidecar file. -/
def fsC2 : List (String × FSEntry) :=
  [("d", FSEntry.dir [("a.conflict.20260101-000000", FSEntry.file infoF)])]

/-- Claim C2, counterexample: The walker output on `fsC2` CONTAINS the path
`d/a.conflict.20260101-000000`, whose base name contains `.conflict.` —
and change detection consequently reports it as an `add` (so a push would
upload it).  This refutes the claim that such paths never appear in the
walker output. -/
theorem walker_emits_sidecar_counterexample :
    GetLocalFiles fsC2 ["d"] = [("d/a.conflict.20260101-000000", infoF)] ∧
    strContains "a.conflict.20260101-000000" ".conflict." = true ∧
    sampleState.DetectChanges fsC2 ["d"] =
      [⟨"d/a.conflict.20260101-000000", "add", infoF.hash, infoF.size,
        infoF.modTime⟩] :=
  ⟨rfl, rfl, rfl⟩

/-- Reachability of a regular file through a directory tree: directly as
a child, or inside a child directory (the path is the slash-joined
relative path). -/
inductive ReachesFile : List (String × FSEntry) → String → FileInfo → Prop where
  | here {children : List (String × FSEntry)} {name : String} {i : FileInfo} :
      (name, FSEntry.file i) ∈ children → ReachesFile children name i
  | within {children : List (String × FSEntry)} {name : String}
      {cs : List (String × FSEntry)} {p : String} {i : FileInfo} :
      (name, FSEntry.dir cs) ∈ children → ReachesFile cs p i →
      ReachesFile children (name ++ "/" ++ p) i

theorem walkChildren_mem_file {children : List (String × FSEntry)} {name : String}
    {i : FileInfo} (hmem : (name, FSEntry.file i) ∈ children) (pre : String) :
    (pre ++ name, i) ∈ walkChildren pre children := by
  induction children with
  | nil => cases hmem
  | cons q rest ih =>
    obtain ⟨n, e⟩ := q
    rcases List.mem_cons.mp hmem with heq | hmem'
    · cases heq
      simp [walkChildren, walkEntry]
    · simp only [walkChildren, List.mem_append]
      exact Or.inr (ih hmem')

theorem walkChildren_mem_dir {children : List (String × FSEntry)} {name : String}
    {cs : List (String × FSEntry)} {x : String × FileInfo} {pre : String}
    (hmem : (name, FSEntry.dir cs) ∈ children)
    (hx : x ∈ walkChildren (pre ++ name ++ "/") cs) :
    x ∈ walkChildren pre children := by
  induction children with
  | nil => cases hmem
  | cons q rest ih =>
    obtain ⟨n, e⟩ := q
    rcases List.mem_cons.mp hmem with heq | hmem'
    · cases heq
      simp only [walkChildren, walkEntry, List.mem_append]
      exact Or.inl hx
    · simp only [walkChildren, List.mem_append]
      exact Or.inr (ih hmem')

theorem walkChildren_reaches {cs : List (String × FSEntry)} {p : String}
    {i : FileInfo} (h : ReachesFile cs p i) :
    ∀ pre, (pre ++ p, i) ∈ walkChildren pre cs := by
  induction h with
  | here hmem => exact fun pre => walkChildren_mem_file hmem pre
  | @within children name cs' p' i' hmem hreach ih =>
    intro pre
    have h2 := ih (pre ++ name ++ "/")
    have h3 := walkChildren_mem_dir hmem h2
    have hassoc : pre ++ name ++ "/" ++ p' = pre ++ (name ++ "/" ++ p') := by
      rw [String.append_assoc pre name "/", String.append_assoc pre (name ++ "/") p']
    rwa [hassoc] at h3

theorem lookupA_ne_none_of_mem {α : Type} {m : List (String × α)} {k : String}
    {v : α} (h : (k, v) ∈ m) : lookupA m k ≠ none := by
  induction m with
  | nil => cases h
  | cons q rest ih =>
    obtain ⟨k', w⟩ := q
    rcases List.mem_cons.mp h with heq | h'
    · cases heq; simp [lookupA]
    · by_cases hk : k' = k <;> simp [lookupA, hk, ih h']

/-- Claim C2, amended: The walker applies NO filter on file names: every
regular file reachable through a directory sync path — `.conflict.`
sidecars included — appears in the walker's output, and is therefore
seen by change detection and by push. -/
theorem walker_has_no_name_filter (fs : List (String × FSEntry))
    (syncPaths : List String) (sp : String) (cs : List (String × FSEntry))
    (p : String) (i : FileInfo) (hsp : sp ∈ syncPaths)
    (hdir : lookupA fs sp = some (FSEntry.dir cs))
    (hreach : ReachesFile cs p i) :
    lookupA (GetLocalFiles fs syncPaths) (sp ++ "/" ++ p) ≠ none := by
  rw [GetLocalFiles, lookupA_dedupKeys]
  have hmem : (sp ++ "/" ++ p, i) ∈ collect (fun syncPath =>
      match lookupA fs syncPath with
      | none => []
      | some (FSEntry.dir cs) => walkChildren (syncPath ++ "/") cs
      | some (FSEntry.file i) => [(syncPath, i)]
      | some FSEntry.symlink => []) syncPaths := by
    rw [mem_collect]
    refine ⟨sp, hsp, ?_⟩
    rw [hdir]
    exact walkChildren_reaches hreach (sp ++ "/")
  exact lookupA_ne_none_of_mem hmem

theorem walker_has_no_name_filter_witness :
    ("d" ∈ (["d"] : List String)) ∧
    lookupA fsC2 "d" =
      some (FSEntry.dir [("a.conflict.20260101-000000", FSEntry.file infoF)]) ∧
    ReachesFile [("a.conflict.20260101-000000", FSEntry.file infoF)]
      "a.conflict.20260101-000000" infoF ∧
    lookupA (GetLocalFiles fsC2 ["d"]) ("d" ++ "/" ++ "a.conflict.20260101-000000") ≠
      none :=
  ⟨List.mem_singleton.mpr rfl, rfl,
   ReachesFile.here (List.mem_singleton.mpr rfl),
   walker_has_no_name_filter fsC2 ["d"] "d" _ _ infoF
     (List.mem_singleton.mpr rfl) rfl
     (ReachesFile.here (List.mem_singleton.mpr rfl))⟩

/-! ## Change-detection correctness (C6) -/

/-- Key uniqueness of an association list (the Go map invariant). -/
abbrev keysNodup {α : Type} (m : List (String × α)) : Prop :=
  (m.map Prod.fst).Nodup

theorem dedupKeysAux_nodup {α : Type} (m : List (String × α)) (seen : List String) :
    ((dedupKeysAux seen m).map Prod.fst).Nodup ∧
    ∀ k ∈ (dedupKeysAux seen m).map Prod.fst, k ∉ seen := by
  induction m generalizing seen with
  | nil => simp [dedupKeysAux]
  | cons p rest ih =>
    obtain ⟨k, v⟩ := p
    by_cases hks : k ∈ seen
    · rw [dedupKeysAux, if_pos hks]
      exact ih seen
    · rw [dedupKeysAux, if_neg hks]
      obtain ⟨hnd, hnin⟩ := ih (k :: seen)
      refine ⟨?_, ?_⟩
      · simp only [List.map_cons, List.nodup_cons]
        exact ⟨fun hkmem => (hnin k hkmem) (List.mem_cons_self k seen), hnd⟩
      · intro k' hk' hk'seen
        simp only [List.map_cons, List.mem_cons] at hk'
        rcases hk' with he | hmem
        · exact hks (he ▸ hk'seen)
        · exact (hnin k' hmem) (List.mem_cons_of_mem _ hk'seen)

theorem keysNodup_GetLocalFiles (fs : List (String × FSEntry))
    (syncPaths : List String) : keysNodup (GetLocalFiles fs syncPaths) :=
  (dedupKeysAux_nodup _ []).1

theorem lookupA_eq_of_mem_nodup {α : Type} {m : List (String × α)} {k : String}
    {v : α} (hnd : keysNodup m) (h : (k, v) ∈ m) : lookupA m k = some v := by
  induction m with
  | nil => cases h
  | cons p rest ih =>
    obtain ⟨k', w⟩ := p
    simp only [keysNodup, List.map_cons, List.nodup_cons] at hnd
    rcases List.mem_cons.mp h with heq | h'
    · cases heq; simp [lookupA]
    · have hk : ¬ k' = k := by
        intro he; subst he
        exact hnd.1 (List.mem_map.mpr ⟨(k', v), h', rfl⟩)
      simpa [lookupA, hk] using ih hnd.2 h'

theorem mem_detectFromLocal {s : SyncState} {L : List (String × FileInfo)}
    (hnd : keysNodup L) (c : FileChange) :
    c ∈ detectFromLocal s L ↔
      (∃ i, lookupA L c.path = some i ∧ s.GetFile c.path = none ∧
        c = ⟨c.path, "add", i.hash, i.size, i.modTime⟩) ∨
      (∃ i ex, lookupA L c.path = some i ∧ s.GetFile c.path = some ex ∧
        ex.hash ≠ i.hash ∧ c = ⟨c.path, "modify", i.hash, i.size, i.modTime⟩) := by
  rw [detectFromLocal, mem_collect]
  constructor
  · rintro ⟨⟨p, i⟩, hq, hc⟩
    have hlk := lookupA_eq_of_mem_nodup hnd hq
    unfold changeForLocal at hc
    rcases hgf : s.GetFile p with _ | ex
    · rw [hgf] at hc
      simp only [List.mem_singleton] at hc
      subst hc
      exact Or.inl ⟨i, hlk, hgf, rfl⟩
    · rw [hgf] at hc
      by_cases hh : ex.hash ≠ i.hash
      · simp only [if_pos hh, List.mem_singleton] at hc
        subst hc
        exact Or.inr ⟨i, ex, hlk, hgf, hh, rfl⟩
      · simp [if_neg hh] at hc
  · rintro (⟨i, hlk, hgf, hc⟩ | ⟨i, ex, hlk, hgf, hh, hc⟩)
    · refine ⟨(c.path, i), mem_of_lookupA_eq_some hlk, ?_⟩
      simp only [changeForLocal, hgf, List.mem_singleton]
      exact hc
    · refine ⟨(c.path, i), mem_of_lookupA_eq_some hlk, ?_⟩
      simp only [changeForLocal, hgf, ne_eq, hh, not_false_eq_true, if_true,
        List.mem_singleton]
      exact hc

theorem mem_detectDeleted {s : SyncState} {L : List (String × FileInfo)}
    (hnd : keysNodup s.files) (c : FileChange) :
    c ∈ detectDeleted L s.files ↔
      ∃ ex, s.GetFile c.path = some ex ∧ lookupA L c.path = none ∧
        c = ⟨c.path, "delete", "", 0, 0⟩ := by
  rw [detectDeleted, mem_collect]
  constructor
  · rintro ⟨⟨p, ex⟩, hq, hc⟩
    have hlk : s.GetFile p = some ex := lookupA_eq_of_mem_nodup hnd hq
    unfold changeForDeleted at hc
    rcases hL : lookupA L p with _ | j
    · rw [hL] at hc
      simp only [Option.isSome_none, Bool.false_eq_true, if_false,
        List.mem_singleton] at hc
      subst hc
      exact ⟨ex, hlk, hL, rfl⟩
    · rw [hL] at hc
      simp at hc
  · rintro ⟨ex, hgf, hL, hc⟩
    refine ⟨(c.path, ex), mem_of_lookupA_eq_some hgf, ?_⟩
    unfold changeForDeleted
    rw [hL]
    simp only [Option.isSome_none, Bool.false_eq_true, if_false,
      List.mem_singleton]
    exact hc

/-- Claim C6: Change-detection correctness: for every state whose `files`
map is well-formed (unique keys — the Go map invariant) and every
working tree and sync-path set, the detector reports `add(f)` exactly for
walker-visible files with no record, `modify(f)` exactly for
walker-visible files whose current fingerprint differs from the recorded
hash, `delete(f)` exactly for recorded paths not visible to the walker,
and nothing else. -/
theorem detectChanges_characterization (s : SyncState)
    (fs : List (String × FSEntry)) (syncPaths : List String)
    (hs : keysNodup s.files) (c : FileChange) :
    c ∈ s.DetectChanges fs syncPaths ↔
      ((∃ i, lookupA (GetLocalFiles fs syncPaths) c.path = some i ∧
          s.GetFile c.path = none ∧
          c = ⟨c.path, "add", i.hash, i.size, i.modTime⟩) ∨
       (∃ i ex, lookupA (GetLocalFiles fs syncPaths) c.path = some i ∧
          s.GetFile c.path = some ex ∧ ex.hash ≠ i.hash ∧
          c = ⟨c.path, "modify", i.hash, i.size, i.modTime⟩) ∨
       (∃ ex, s.GetFile c.path = some ex ∧
          lookupA (GetLocalFiles fs syncPaths) c.path = none ∧
          c = ⟨c.path, "delete", "", 0, 0⟩)) := by
  have hndL := keysNodup_GetLocalFiles fs syncPaths
  unfold SyncState.DetectChanges
  rw [List.mem_append, mem_detectFromLocal hndL, mem_detectDeleted hs]
  rw [or_assoc]

theorem detectChanges_characterization_witness :
    keysNodup stateC.files ∧
    ((⟨"f", "delete", "", 0, 0⟩ : FileChange) ∈ stateC.DetectChanges [] [] ↔
      ((∃ i, lookupA (GetLocalFiles [] []) (FileChange.path ⟨"f", "delete", "", 0, 0⟩) = some i ∧
          stateC.GetFile (FileChange.path ⟨"f", "delete", "", 0, 0⟩) = none ∧
          (⟨"f", "delete", "", 0, 0⟩ : FileChange) =
            ⟨FileChange.path ⟨"f", "delete", "", 0, 0⟩, "add", i.hash, i.size, i.modTime⟩) ∨
       (∃ i ex, lookupA (GetLocalFiles [] []) (FileChange.path ⟨"f", "delete", "", 0, 0⟩) = some i ∧
          stateC.GetFile (FileChange.path ⟨"f", "delete", "", 0, 0⟩) = some ex ∧
          ex.hash ≠ i.hash ∧
          (⟨"f", "delete", "", 0, 0⟩ : FileChange) =
            ⟨FileChange.path ⟨"f", "delete", "", 0, 0⟩, "modify", i.hash, i.size, i.modTime⟩) ∨
       (∃ ex, stateC.GetFile (FileChange.path ⟨"f", "delete", "", 0, 0⟩) = some ex ∧
          lookupA (GetLocalFiles [] []) (FileChange.path ⟨"f", "delete", "", 0, 0⟩) = none ∧
          (⟨"f", "delete", "", 0, 0⟩ : FileChange) =
            ⟨FileChange.path ⟨"f", "delete", "", 0, 0⟩, "delete", "", 0, 0⟩))) :=
  ⟨by decide, detectChanges_characterization stateC [] [] (by decide) _⟩

theorem pickTestObject_selects_first_witness :
    ([{ key := "a.age", size := 5000, lastModified := 0 },
      { key := "b.age", size := 100, lastModified := 0 }] : List ObjectInfo).find?
        (fun x => decide (0 < x.size) && decide (x.size < 10000)) =
      some { key := "a.age", size := 5000, lastModified := 0 } ∧
    ({ key := "a.age", size := 5000, lastModified := 0 } : ObjectInfo).key ≠ "" ∧
    pickTestObject [{ key := "a.age", size := 5000, lastModified := 0 },
                    { key := "b.age", size := 100, lastModified := 0 }] =
      { key := "a.age", size := 5000, lastModified := 0 } :=
  ⟨rfl, by decide,
   (pickTestObject_selects_first _ _).1 rfl (by decide)⟩

end ClaudeSync
